import Mathlib

/-!
Verification development for the permalink transform of this repository
(src/lib/index.js).  The JavaScript source is shallowly embedded: documents
and the document set become explicit data, the single synchronous pass
becomes a fold over the snapshot of keys, and the external services the
code consumes (moment date formatting, the slugify library, RegExp tests,
caller-supplied strategy functions) are modelled as opaque function values
carried in the configuration, exactly where the source treats them as
pluggable.  Node path functions (posix) are re-implemented on strings.
-/

namespace Permalinks

/-! String utilities mirroring the JavaScript string operations in use. -/

def wordChar (c : Char) : Bool := c.isAlphanum || c = '_'

def strLen (s : String) : Nat := s.toList.length

def strDrop (s : String) (n : Nat) : String := String.mk (s.toList.drop n)

/-- JS key.indexOf(p) === 0, i.e. p is a prefix of s. -/
def isPre (p s : String) : Bool := p.toList.isPrefixOf s.toList

/-- JS regex test for a trailing literal, e.g. the /html$/ test on line 393. -/
def endsWithStr (s suf : String) : Bool := suf.toList.isSuffixOf s.toList

/-- First-occurrence replacement on character lists: the behaviour of the JS
String.prototype.replace with a plain string search value (used by relink). -/
def replFirst (s pat rep : List Char) : List Char :=
  match s with
  | [] => if pat.isEmpty then rep else []
  | c :: rest =>
    if pat.isPrefixOf (c :: rest) then rep ++ (c :: rest).drop pat.length
    else c :: replFirst rest pat rep

def replaceFirstStr (s pat rep : String) : String :=
  String.mk (replFirst s.toList pat.toList rep.toList)

/-- The .replace of every backslash by a slash (regex with the g flag). -/
def backslashToSlash (s : String) : String :=
  String.mk (s.toList.map (fun c => if c = '\\' then '/' else c))

def splitCh : List Char → List (List Char)
  | [] => [[]]
  | c :: rest =>
    if c = '/' then [] :: splitCh rest
    else
      match splitCh rest with
      | [] => [[c]]
      | g :: gs => (c :: g) :: gs

def splitSlash (s : String) : List String := (splitCh s.toList).map String.mk

/-! Node path.posix functions, translated from the Node implementations the
source calls (dirname, basename with an extension argument, extname, join). -/

def dirname (s : String) : String :=
  let cs := s.toList
  if cs.isEmpty then "." else
  let hasRoot := cs.head? = some '/'
  let r1 := cs.reverse.dropWhile (fun c => c = '/')
  let r2 := r1.dropWhile (fun c => c ≠ '/')
  match r2 with
  | [] => if hasRoot then "/" else "."
  | _ :: rest => if rest.isEmpty then (if hasRoot then "/" else ".") else String.mk rest.reverse

def basenameExt (s ext : String) : String :=
  let r1 := s.toList.reverse.dropWhile (fun c => c = '/')
  let comp := (r1.takeWhile (fun c => c ≠ '/')).reverse
  let compS := String.mk comp
  if ext ≠ "" && compS ≠ ext && endsWithStr compS ext then
    String.mk (comp.take (comp.length - ext.toList.length))
  else compS

def extname (s : String) : String :=
  let comp := (s.toList.reverse.takeWhile (fun c => c ≠ '/')).reverse
  if comp = ['.', '.'] then "" else
  let rc := comp.reverse
  match rc.dropWhile (fun c => c ≠ '.') with
  | [] => ""
  | _ :: before =>
    if before.isEmpty then ""
    else String.mk ('.' :: (rc.takeWhile (fun c => c ≠ '.')).reverse)

/-- One step of posix path normalization over already-split segments. -/
def normSeg (isAbs : Bool) (stack : List String) (seg : String) : List String :=
  if seg = "" || seg = "." then stack
  else if seg = ".." then
    match stack with
    | top :: rest => if top = ".." then seg :: top :: rest else rest
    | [] => if isAbs then [] else [".."]
  else seg :: stack

def normalizeJs (p : String) : String :=
  if p = "" then "." else
  let isAbs := isPre "/" p
  let trailing := endsWithStr p "/"
  let stack := (splitSlash p).foldl (normSeg isAbs) []
  let body := String.intercalate "/" stack.reverse
  let res := (if isAbs then "/" else "") ++ body
  let res := if res = "" then "." else res
  if trailing && !(endsWithStr res "/") then res ++ "/" else res

/-- Node path.posix.join: empty arguments are skipped, the rest are joined
with a slash and the result normalized. -/
def pjoinList (parts : List String) : String :=
  let ne := parts.filter (fun s => s ≠ "")
  if ne.isEmpty then "." else normalizeJs (String.intercalate "/" ne)

/-- Line 218: whether a file key is an HTML file. -/
def html (str : String) : Bool := extname str = ".html"

/-! Data model: documents and the document set.  A Document carries content
bytes (modelled as a string), the reserved metadata fields the code reads
or writes (path, slug, permalink) and the open metadata mapping consumed
by pattern substitution.  The document set is an insertion-ordered
key-to-document association list, as JS object iteration order gives. -/

inductive MetaVal where
  | str (s : String)
  | date (d : Nat)
  | list (xs : List String)
deriving DecidableEq

inductive PermVal where
  | pfalse
  | pstr (s : String)
deriving DecidableEq

structure Doc where
  contents : String := ""
  path : Option String := none
  slug : Option String := none
  permalink : Option PermVal := none
  meta : List (String × MetaVal) := []
deriving DecidableEq

abbrev Files := List (String × Doc)

def getF (fs : Files) (k : String) : Option Doc :=
  (fs.find? (fun p => p.1 == k)).map (fun p => p.2)

def memF (fs : Files) (k : String) : Bool := (getF fs k).isSome

/-- JS assignment files[k] = v: an existing key keeps its slot, a fresh key
is appended in insertion order. -/
def setF : Files → String → Doc → Files
  | [], k, v => [(k, v)]
  | p :: rest, k, v => if p.1 == k then (k, v) :: rest else p :: setF rest k v

/-- JS delete files[k]. -/
def delF (fs : Files) (k : String) : Files := fs.filter (fun p => !(p.1 == k))

/-- Metadata access data[key]: the reserved string-valued fields live on the
same object as the open metadata mapping. -/
def Doc.get (d : Doc) (k : String) : Option MetaVal :=
  if k = "path" then d.path.map MetaVal.str
  else if k = "slug" then d.slug.map MetaVal.str
  else (d.meta.find? (fun p => p.1 == k)).map (fun p => p.2)

/-- JS stringification of a metadata value (Array.prototype.toString joins
with commas); the date arm is never reached because dates take the date
formatter branch in replace. -/
def valToString : MetaVal → String
  | MetaVal.str s => s
  | MetaVal.date d => toString d
  | MetaVal.list xs => String.intercalate "," xs

/-- Falsiness of a metadata value under the !val check on line 179. -/
def jsFalsyVal : MetaVal → Bool
  | MetaVal.str s => s = ""
  | MetaVal.date _ => false
  | MetaVal.list _ => false

/-- The Array.isArray(val) && val.length === 0 check on line 179. -/
def isEmptyArr : MetaVal → Bool
  | MetaVal.list xs => xs.isEmpty
  | _ => false

/-- A referenced field that survives the line 179 guard: present, truthy,
and not an empty array. -/
def presentOk : Option MetaVal → Bool
  | none => false
  | some v => !(jsFalsyVal v) && !(isEmptyArr v)

/-- JS || with a string default, as in indexFile || "index.html" and in
replace(..) || resolve(file): the empty string is falsy. -/
def jsOrStr (o : Option String) (d : String) : String :=
  match o with
  | some s => if s = "" then d else s
  | none => d

/-- String coercion of a possibly-undefined string value (regex test against
data.path coerces undefined to the string undefined). -/
def jsStr (o : Option String) : String :=
  match o with
  | some s => s
  | none => "undefined"

/-- Falsiness of data.slug in data.slug || options.customSlug(data). -/
def slugFalsy : Option String → Bool
  | none => true
  | some s => s = ""

/-! Configuration.  The external services (slugify, moment, RegExp) are
modelled as opaque function values: the slug strategy is the String to
String function the code ends up applying (a caller-supplied slug function,
or the external slugify closed over the configured slug options, lines
186-191); the date formatter is the function produced by format (line 77)
from the external moment library; a compiled linkset matcher is the
predicate the match reduce applies per field (lines 258-275). -/

inductive RelVal where
  | rTrue
  | rFolder
  | rOff
deriving DecidableEq

inductive UniqueOpt where
  | off
  | flag
  | custom (f : String → Files → String → String)

/-- Truthiness of options.unique in the do-while condition on line 304. -/
def uniqueTruthy : UniqueOpt → Bool
  | UniqueOpt.off => false
  | _ => true

def uniqueIsCustom : UniqueOpt → Bool
  | UniqueOpt.custom _ => true
  | _ => false

structure Linkset where
  pattern : String := ""
  lsMatch : List (String × (Option MetaVal → Bool)) := []
  relative : Option RelVal := none
  isDefault : Bool := false
  slugFn : String → String := fun s => s
  dateFmt : Nat → String := fun _ => ""

structure Opts where
  pattern : String := ""
  date : Option String := none
  dateFmt : Nat → String := fun _ => ""
  relative : Option RelVal := none
  linksets : List Linkset := []
  indexFile : Option String := none
  unique : UniqueOpt := UniqueOpt.off
  duplicatesFail : Bool := false
  slugFn : String → String := fun s => s
  customSlug : Option (Doc → String) := none
  fileFilter : Option (String → Bool) := none
  ignoreFilter : Option (String → Bool) := none

/-- The raw options argument of plugin: a bare pattern string, an options
object, or a missing argument. -/
inductive RawOptions where
  | str (s : String)
  | obj (o : Opts)
  | undef

/-- Lines 54-69, normalize, parameterized by the external moment formatter
fmt (format string to formatter): date is honoured when it is a string and
defaulted to YYYY/MM/DD otherwise; relative defaults to true only when the
options object has no relative property of its own; absent linksets are
already modelled as the empty list. -/
def normalizeObj (fmt : String → Nat → String) (o : Opts) : Opts :=
  { o with
    dateFmt := match o.date with
      | some s => fmt s
      | none => fmt "YYYY/MM/DD"
    relative := match o.relative with
      | some r => some r
      | none => some RelVal.rTrue }

def normalize (fmt : String → Nat → String) : RawOptions → Opts
  | RawOptions.str s => normalizeObj fmt { pattern := s }
  | RawOptions.undef => normalizeObj fmt {}
  | RawOptions.obj o => normalizeObj fmt o

/-- The options object used as a linkset when it acts as the default
linkset (line 250-252): the fields the per-file processing reads from a
linkset, taken from the top-level options. -/
def Opts.toLinkset (o : Opts) : Linkset :=
  { pattern := o.pattern, lsMatch := [], relative := o.relative,
    isDefault := false, slugFn := o.slugFn, dateFmt := o.dateFmt }

/-- Lines 246-252: the linkset marked default, else the options object. -/
def defaultLinksetOf (o : Opts) : Linkset :=
  match o.linksets.find? (fun ls => ls.isDefault) with
  | some ls => ls
  | none => o.toLinkset

/-- Lines 256-279, findLinkset: the first linkset whose every match field
accepts the document (reduce with logical and over the compiled matchers),
else the default linkset. -/
def findLinkset (linksets : List Linkset) (dls : Linkset) (data : Doc) : Linkset :=
  match linksets.find? (fun ls =>
      ls.lsMatch.foldl (fun sofar kv => sofar && kv.2 (data.get kv.1)) true) with
  | some ls => ls
  | none => dls

/-! Pattern substitution engine: params (lines 204-210, the /:(\w+)/g scan),
the external substitute library (replace each :word token by its value),
and replace (lines 171-196). -/

def paramsAux : Nat → List Char → List String
  | 0, _ => []
  | _, [] => []
  | fuel + 1, c :: rest =>
    if c = ':' ∧ ¬(rest.takeWhile wordChar).isEmpty then
      String.mk (rest.takeWhile wordChar) :: paramsAux fuel (rest.dropWhile wordChar)
    else paramsAux fuel rest

/-- The scan always consumes at least one character per step, so fuel equal
to the length of the pattern suffices. -/
def params (pattern : String) : List String :=
  paramsAux pattern.toList.length pattern.toList

def substAux (ret : List (String × String)) : Nat → List Char → List Char
  | 0, _ => []
  | _, [] => []
  | fuel + 1, c :: rest =>
    if c = ':' ∧ ¬(rest.takeWhile wordChar).isEmpty then
      (match ret.find? (fun p => p.1 == String.mk (rest.takeWhile wordChar)) with
       | some p => p.2.toList
       | none => c :: rest.takeWhile wordChar) ++ substAux ret fuel (rest.dropWhile wordChar)
    else c :: substAux ret fuel rest

def substituteStr (pattern : String) (ret : List (String × String)) : String :=
  String.mk (substAux ret pattern.toList.length pattern.toList)

/-- The loop body of replace (lines 176-193): resolve every placeholder key
to its formatted or slugified string, failing to none if any referenced
value is absent, falsy, or an empty array. -/
def buildRet (keys : List String) (data : Doc) (ls : Linkset) : Option (List (String × String)) :=
  match keys with
  | [] => some []
  | k :: ks =>
    match data.get k with
    | none => none
    | some v =>
      if jsFalsyVal v || isEmptyArr v then none
      else
        let s := match v with
          | MetaVal.date d => ls.dateFmt d
          | _ => ls.slugFn (valToString v)
        match buildRet ks data ls with
        | none => none
        | some r => some ((k, s) :: r)

/-- Lines 171-196, replace: an empty (falsy) pattern yields null; otherwise
substitute the resolved values into the pattern. -/
def replaceFn (pattern : String) (data : Doc) (ls : Linkset) : Option String :=
  if pattern = "" then none
  else
    match buildRet (params pattern) data ls with
    | none => none
    | some ret => some (substituteStr pattern ret)

/-- Lines 150-160, resolve: structural fallback for the target directory. -/
def resolve (str : String) : String :=
  let base := basenameExt str (extname str)
  let ret := dirname str
  if base ≠ "index" then backslashToSlash (pjoinList [ret, base]) else ret

/-- Line 352: replace(linkset.pattern, data, linkset) || resolve(file). -/
def targetDir (ls : Linkset) (file : String) (data : Doc) : String :=
  jsOrStr (replaceFn ls.pattern data ls) (resolve file)

/-- Lines 89-112, family: siblings and children of the directory of file,
markup files and the file itself excluded; a directory of . is replaced by
the empty string before the prefix test. -/
def family (file : String) (files : Files) : Files :=
  let dir0 := dirname file
  let dir := if dir0 = "." then "" else dir0
  files.foldl (fun ret kv =>
    if kv.1 = file then ret
    else if isPre dir kv.1 = false then ret
    else if html kv.1 then ret
    else setF ret (strDrop kv.1 (strLen dir)) kv.2) []

/-- Lines 121-142, folder: files under the directory named after file. -/
def folder (file : String) (files : Files) : Files :=
  let bn := basenameExt file (extname file)
  let dir0 := dirname file
  let dir := if dir0 = "." then "" else dir0
  let sharedPath := pjoinList [dir, bn, "/"]
  files.foldl (fun fam kv =>
    if kv.1 = file then fam
    else if isPre sharedPath kv.1 = false then fam
    else if html kv.1 then fam
    else setF fam (strDrop kv.1 (strLen sharedPath)) kv.2) []

/-- Lines 354-364: the switch on linkset.relative. -/
def famFor (rel : Option RelVal) (file : String) (files : Files) : Option Files :=
  match rel with
  | some RelVal.rTrue => some (family file files)
  | some RelVal.rFolder => some (folder file files)
  | _ => none

/-- Lines 38-45, relink: iterate the keys of the moved table (insertion
order) with the key as to and the stored value as from, and perform
content.replace(from, to), a first-occurrence string replacement. -/
def relink (data : Doc) (moved : List (String × String)) : Doc :=
  let c2 := moved.foldl (fun c pr => replaceFirstStr c pr.2 pr.1) data.contents
  { data with contents := c2 }

/-- Lines 380-388: stage every family member under its new key in the
pending-moves accumulator and record old-suffix to new-key in moved. -/
def stage : Files → String → Files → List (String × String) → Files × List (String × String)
  | [], _, dupes, moved => (dupes, moved)
  | kv :: rest, ppath, dupes, moved =>
    let rel := pjoinList [ppath, kv.1]
    stage rest ppath (setF dupes rel kv.2) (moved ++ [(kv.1, rel)])

/-- Lines 390-395: the path metadata written for templates, with the
index-file suffix appended when the path does not end in html. -/
def pathField (ppath : String) : String :=
  let p := if ppath = "." then "" else backslashToSlash ppath
  if endsWithStr p "html" then p else p ++ "/index.html"

/-- Result of the uniqueness resolver: the concrete key, or the fatal
duplicate error handed to done (whose undefined return value becomes the
out key). -/
inductive DupResult where
  | ok (target : String)
  | clash (msg : String)
deriving DecidableEq

/-- Lines 293-304, the do-while of defaultUniquePath, with explicit fuel
(one more than the number of keys always suffices since the numbered
candidates are pairwise distinct). -/
def duLoop (opts : Opts) (files : Files) (targetPath : String) : Nat → Nat → String → DupResult
  | 0, _, _ => DupResult.ok ""
  | fuel + 1, counter, pfx =>
    let target := pjoinList [targetPath ++ pfx, jsOrStr opts.indexFile "index.html"]
    if opts.duplicatesFail && memF files target then
      DupResult.clash ("Permalinks: Clash with another target file " ++ target)
    else if uniqueTruthy opts.unique && memF files target then
      duLoop opts files targetPath fuel (counter + 1) ("-" ++ toString (counter + 1))
    else DupResult.ok target

/-- Lines 285-307, defaultUniquePath. -/
def defaultUniquePath (opts : Opts) (files : Files) (targetPath : String) : DupResult :=
  duLoop opts files targetPath (files.length + 1) 0 ""

/-- Lines 352 and 366-372: the target directory from pattern substitution
with structural fallback, overridden unconditionally by an explicit
non-false permalink metadata value. -/
def ppathOf (ls : Linkset) (file : String) (data : Doc) : String :=
  match data.permalink with
  | some (PermVal.pstr s) => s
  | _ => targetDir ls file data

/-- The mutable state the pass threads: the live document set, the
pending-moves accumulator, and the completion calls issued so far. -/
structure PassState where
  files : Files
  dupes : Files
  doneCalls : List (Option String)
deriving DecidableEq

/-- Lines 314-329: the inclusion and exclusion filter checks; the
exclusion check overwrites the inclusion result when both are set. -/
def inDirsOf (opts : Opts) (data0 : Doc) : Bool :=
  let inDir1 : Bool :=
    match opts.fileFilter with
    | some re => re (jsStr data0.path)
    | none => true
  match opts.ignoreFilter with
  | some re => !(re (jsStr data0.path))
  | none => inDir1

/-- Lines 331-334: data.slug = data.slug || options.customSlug(data). -/
def slugStep (opts : Opts) (data0 : Doc) : Doc :=
  match opts.customSlug with
  | some f => if slugFalsy data0.slug then { data0 with slug := some (f data0) } else data0
  | none => data0

/-- Lines 341-403: the processing of a document that passed the filter,
markup and permalink opt-out checks.  A clash from the default uniqueness
resolver calls done with the error and returns undefined, which the
subsequent files[out] = data turns into the literal key undefined; the
snapshot loop itself is not aborted. -/
def processMain (opts : Opts) (dls : Linkset) (st : PassState) (file : String)
    (data : Doc) (files1 : Files) : PassState :=
  let linkset := findLinkset opts.linksets dls data
  let ppath := ppathOf linkset file data
  let fam := famFor linkset.relative file files1
  let outRes :=
    match opts.unique with
    | UniqueOpt.custom f => DupResult.ok (f ppath files1 file)
    | _ => defaultUniquePath opts files1 ppath
  let outDone :=
    match outRes with
    | DupResult.ok t => (t, st.doneCalls)
    | DupResult.clash m => ("undefined", st.doneCalls ++ [some m])
  let staged :=
    match fam with
    | some f => stage f ppath st.dupes []
    | none => (st.dupes, [])
  let data2 := relink { data with path := some (pathField ppath) } staged.2
  { files := setF (delF files1 file) outDone.1 data2,
    dupes := staged.1,
    doneCalls := outDone.2 }

/-- Lines 311-404: the body of the snapshot forEach for one key.  The slug
mutation is visible in the document set even when the document is then
skipped as non-markup or opted out, because the JS document object is
mutated in place. -/
def processFile (opts : Opts) (dls : Linkset) (st : PassState) (file : String) : PassState :=
  match getF st.files file with
  | none => st
  | some data0 =>
    if !inDirsOf opts data0 then st
    else
      let data := slugStep opts data0
      let files1 := setF st.files file data
      if !html file then { st with files := files1 }
      else if data.permalink = some PermVal.pfalse then { st with files := files1 }
      else processMain opts dls st file data files1

def initState (dupes0 files0 : Files) : PassState :=
  { files := files0, dupes := dupes0, doneCalls := [] }

/-- The snapshot loop: Object.keys(files) is taken once, then each key is
processed in order against the live state. -/
def passOf (opts : Opts) (dls : Linkset) (dupes0 files0 : Files) : PassState :=
  List.foldl (processFile opts dls) (initState dupes0 files0) (files0.map Prod.fst)

structure TransformResult where
  files : Files
  dupes : Files
  doneCalls : List (Option String)
deriving DecidableEq

/-- Lines 281-411: one invocation of the returned transform.  The
pending-moves accumulator lives in the plugin closure (line 254), so it is
an input and an output; after the snapshot loop every accumulator entry is
flushed into the document set (lines 408-410), and the completion callback
invocations are the synchronous error calls followed by the deferred
setImmediate call (which observes last, with no error). -/
def transformOnce (opts : Opts) (dls : Linkset) (dupes0 files0 : Files) : TransformResult :=
  let st := passOf opts dls dupes0 files0
  { files := st.dupes.foldl (fun fs kv => setF fs kv.1 kv.2) st.files,
    dupes := st.dupes,
    doneCalls := st.doneCalls ++ [none] }

/-! Basic lemmas about the document-set operations. -/

theorem getF_cons (p : String × Doc) (fs : Files) (k : String) :
    getF (p :: fs) k = if p.1 = k then some p.2 else getF fs k := by
  by_cases h : p.1 = k
  · simp [getF, List.find?_cons_of_pos, h]
  · simp only [getF, h, if_false]
    rw [List.find?_cons_of_neg]
    simp [h]

theorem getF_setF_self (fs : Files) (k : String) (v : Doc) :
    getF (setF fs k v) k = some v := by
  induction fs with
  | nil => simp [setF, getF_cons]
  | cons p rest ih =>
    by_cases h : p.1 = k
    · simp [setF, h, getF_cons]
    · simp only [setF, beq_iff_eq, h, if_false]
      rw [getF_cons]
      simp [h, ih]

theorem getF_setF_ne (fs : Files) (k k2 : String) (v : Doc) (h : k ≠ k2) :
    getF (setF fs k2 v) k = getF fs k := by
  induction fs with
  | nil =>
    show getF [(k2, v)] k = getF [] k
    rw [getF_cons]
    simp [Ne.symm h]
  | cons p rest ih =>
    by_cases hp : p.1 = k2
    · simp only [setF, beq_iff_eq, hp, if_true]
      rw [getF_cons, getF_cons]
      simp [Ne.symm h, hp]
    · simp only [setF, beq_iff_eq, hp, if_false]
      rw [getF_cons, getF_cons, ih]

theorem getF_delF_self (fs : Files) (k : String) :
    getF (delF fs k) k = none := by
  induction fs with
  | nil => rfl
  | cons p rest ih =>
    by_cases h : p.1 = k
    · simpa [delF, h] using ih
    · simp only [delF, List.filter_cons, beq_iff_eq, h]
      simpa [getF_cons, h, delF] using ih

theorem setF_eq_self (fs : Files) (k : String) (v : Doc) (h : getF fs k = some v) :
    setF fs k v = fs := by
  induction fs with
  | nil => simp [getF] at h
  | cons p rest ih =>
    rw [getF_cons] at h
    by_cases hp : p.1 = k
    · simp only [hp, if_pos rfl] at h
      obtain rfl : p.2 = v := by injection h
      show (if p.1 == k then (k, p.2) :: rest else p :: setF rest k p.2) = p :: rest
      rw [if_pos (by simp [hp] : (p.1 == k) = true), ← hp]
    · simp only [hp, if_false] at h
      simp [setF, hp, ih h]

theorem memF_setF_pres (fs : Files) (k k2 : String) (v : Doc) (h : memF fs k = true) :
    memF (setF fs k2 v) k = true := by
  by_cases hk : k = k2
  · subst hk; simp [memF, getF_setF_self]
  · simpa [memF, getF_setF_ne fs k k2 v hk] using h

theorem memF_of_mem_mapFst (fs : Files) (k : String) (h : k ∈ fs.map Prod.fst) :
    memF fs k = true := by
  induction fs with
  | nil => simp at h
  | cons p rest ih =>
    simp only [List.map_cons, List.mem_cons] at h
    rw [memF, getF_cons]
    rcases h with h | h
    · simp [h.symm]
    · by_cases hp : p.1 = k
      · simp [hp]
      · simpa [hp, memF] using ih h

theorem mapFst_setF (fs : Files) (k : String) (v : Doc) :
    (setF fs k v).map Prod.fst = if memF fs k then fs.map Prod.fst else fs.map Prod.fst ++ [k] := by
  induction fs with
  | nil => simp [setF, memF, getF]
  | cons p rest ih =>
    by_cases hp : p.1 = k
    · have hm : memF (p :: rest) k = true := by simp [memF, getF_cons, hp]
      simp only [setF, beq_iff_eq, hp, if_true, hm, List.map_cons]
    · have hms : memF (p :: rest) k = memF rest k := by simp [memF, getF_cons, hp]
      simp only [setF, beq_iff_eq, hp, if_false, List.map_cons, ih, hms]
      by_cases hm : memF rest k <;> simp [hm]

theorem setF_nodup (fs : Files) (k : String) (v : Doc)
    (h : (fs.map Prod.fst).Nodup) : ((setF fs k v).map Prod.fst).Nodup := by
  rw [mapFst_setF]
  by_cases hm : memF fs k = true
  · simpa [hm]
  · have hm2 : memF fs k = false := by simpa using hm
    simp only [hm2, Bool.false_eq_true, if_false]
    refine List.Nodup.append h (List.nodup_singleton k) ?_
    intro a ha hb
    simp only [List.mem_singleton] at hb
    subst hb
    rw [memF_of_mem_mapFst fs a ha] at hm2
    cases hm2

theorem setF_append (fs : Files) (k : String) (v : Doc) (h : getF fs k = none) :
    setF fs k v = fs ++ [(k, v)] := by
  induction fs with
  | nil => rfl
  | cons p rest ih =>
    rw [getF_cons] at h
    by_cases hp : p.1 = k
    · simp [hp] at h
    · simp only [hp, if_false] at h
      simp [setF, hp, ih h]

theorem getF_flush_not_mem (entries fs : Files) (k : String)
    (h : k ∉ entries.map Prod.fst) :
    getF (entries.foldl (fun a kv => setF a kv.1 kv.2) fs) k = getF fs k := by
  induction entries generalizing fs with
  | nil => rfl
  | cons p rest ih =>
    simp only [List.map_cons, List.mem_cons, not_or] at h
    simp only [List.foldl_cons]
    rw [ih (setF fs p.1 p.2) h.2, getF_setF_ne fs k p.1 p.2 h.1]

theorem getF_flush_nodup (entries : Files) :
    (entries.map Prod.fst).Nodup → ∀ (fs : Files) (k : String) (v : Doc),
      getF entries k = some v →
      getF (entries.foldl (fun a kv => setF a kv.1 kv.2) fs) k = some v := by
  induction entries with
  | nil => intro _ fs k v h; simp [getF] at h
  | cons p rest ih =>
    intro hnd fs k v h
    simp only [List.map_cons, List.nodup_cons] at hnd
    rw [getF_cons] at h
    simp only [List.foldl_cons]
    by_cases hp : p.1 = k
    · rw [if_pos hp] at h
      subst hp
      rw [getF_flush_not_mem rest (setF fs p.1 p.2) p.1 hnd.1, getF_setF_self]
      exact h
    · rw [if_neg hp] at h
      exact ih hnd.2 (setF fs p.1 p.2) k v h

theorem memF_flush_pres (entries : Files) (k : String) :
    ∀ fs : Files, memF fs k = true →
      memF (entries.foldl (fun a kv => setF a kv.1 kv.2) fs) k = true := by
  induction entries with
  | nil => intro fs h; exact h
  | cons p rest ih =>
    intro fs h
    simp only [List.foldl_cons]
    exact ih (setF fs p.1 p.2) (memF_setF_pres fs k p.1 p.2 h)

theorem memF_flush_of_mem (entries : Files) (k : String) :
    ∀ fs : Files, memF entries k = true →
      memF (entries.foldl (fun a kv => setF a kv.1 kv.2) fs) k = true := by
  induction entries with
  | nil => intro fs h; simp [memF, getF] at h
  | cons p rest ih =>
    intro fs h
    rw [memF, getF_cons] at h
    simp only [List.foldl_cons]
    by_cases hp : p.1 = k
    · subst hp
      exact memF_flush_pres rest p.1 (setF fs p.1 p.2) (by simp [memF, getF_setF_self])
    · rw [if_neg hp] at h
      exact ih (setF fs p.1 p.2) h

/-! Invariants of the staging loop and of the default uniqueness resolver. -/

theorem stage_dupes_mem (fam : Files) (ppath : String) :
    ∀ (dupes : Files) (moved : List (String × String)) (k : String),
      memF dupes k = true → memF (stage fam ppath dupes moved).1 k = true := by
  induction fam with
  | nil => intro dupes moved k h; exact h
  | cons kv rest ih =>
    intro dupes moved k h
    simp only [stage]
    exact ih _ _ k (memF_setF_pres _ _ _ _ h)

theorem stage_dupes_nodup (fam : Files) (ppath : String) :
    ∀ (dupes : Files) (moved : List (String × String)),
      (dupes.map Prod.fst).Nodup → (((stage fam ppath dupes moved).1).map Prod.fst).Nodup := by
  induction fam with
  | nil => intro dupes moved h; exact h
  | cons kv rest ih =>
    intro dupes moved h
    simp only [stage]
    exact ih _ _ (setF_nodup _ _ _ h)

theorem duLoop_clash_dup (opts : Opts) (files : Files) (tp : String) :
    ∀ (fuel counter : Nat) (pfx m : String),
      duLoop opts files tp fuel counter pfx = DupResult.clash m →
      opts.duplicatesFail = true := by
  intro fuel
  induction fuel with
  | zero => intro counter pfx m h; simp [duLoop] at h
  | succ fuel ih =>
    intro counter pfx m h
    simp only [duLoop] at h
    generalize hT : pjoinList [tp ++ pfx, jsOrStr opts.indexFile "index.html"] = target at h
    by_cases h1 : (opts.duplicatesFail && memF files target) = true
    · exact ((Bool.and_eq_true _ _).mp h1).1
    · rw [if_neg h1] at h
      by_cases h2 : (uniqueTruthy opts.unique && memF files target) = true
      · rw [if_pos h2] at h
        exact ih _ _ _ h
      · rw [if_neg h2] at h
        cases h

/-! Shape invariants of the per-file processing step: the completion calls
only ever grow by error calls, error calls require duplicatesFail, and the
pending-moves accumulator only grows (its keys stay present and stay
duplicate-free). -/

theorem processMain_done (opts : Opts) (dls : Linkset) (st : PassState) (file : String)
    (data : Doc) (files1 : Files) :
    ∃ t, (processMain opts dls st file data files1).doneCalls = st.doneCalls ++ t ∧
      (∀ e ∈ t, e ≠ none) ∧ (opts.duplicatesFail = false → t = []) := by
  unfold processMain
  dsimp only
  cases hu : opts.unique with
  | custom f => exact ⟨[], by simp⟩
  | off =>
    cases hr : defaultUniquePath opts files1
        (ppathOf (findLinkset opts.linksets dls data) file data) with
    | ok t => exact ⟨[], by simp⟩
    | clash m =>
      refine ⟨[some m], rfl, by simp, fun hdup => ?_⟩
      have hcl := duLoop_clash_dup opts _ _ _ _ _ m (by simpa [defaultUniquePath] using hr)
      rw [hdup] at hcl
      cases hcl
  | flag =>
    cases hr : defaultUniquePath opts files1
        (ppathOf (findLinkset opts.linksets dls data) file data) with
    | ok t => exact ⟨[], by simp⟩
    | clash m =>
      refine ⟨[some m], rfl, by simp, fun hdup => ?_⟩
      have hcl := duLoop_clash_dup opts _ _ _ _ _ m (by simpa [defaultUniquePath] using hr)
      rw [hdup] at hcl
      cases hcl

theorem processMain_dupes_mem (opts : Opts) (dls : Linkset) (st : PassState) (file : String)
    (data : Doc) (files1 : Files) (k : String) (h : memF st.dupes k = true) :
    memF (processMain opts dls st file data files1).dupes k = true := by
  unfold processMain
  dsimp only
  split
  · exact stage_dupes_mem _ _ _ _ k h
  · exact h

theorem processMain_dupes_nodup (opts : Opts) (dls : Linkset) (st : PassState) (file : String)
    (data : Doc) (files1 : Files) (h : (st.dupes.map Prod.fst).Nodup) :
    (((processMain opts dls st file data files1).dupes).map Prod.fst).Nodup := by
  unfold processMain
  dsimp only
  split
  · exact stage_dupes_nodup _ _ _ _ h
  · exact h

theorem processFile_done (opts : Opts) (dls : Linkset) (st : PassState) (file : String) :
    ∃ t, (processFile opts dls st file).doneCalls = st.doneCalls ++ t ∧
      (∀ e ∈ t, e ≠ none) ∧ (opts.duplicatesFail = false → t = []) := by
  unfold processFile
  split
  · exact ⟨[], by simp⟩
  · split
    · exact ⟨[], by simp⟩
    · dsimp only
      split
      · exact ⟨[], by simp⟩
      · split
        · exact ⟨[], by simp⟩
        · exact processMain_done opts dls st file _ _

theorem processFile_dupes_mem (opts : Opts) (dls : Linkset) (st : PassState)
    (file k : String) (h : memF st.dupes k = true) :
    memF (processFile opts dls st file).dupes k = true := by
  unfold processFile
  split
  · exact h
  · split
    · exact h
    · dsimp only
      split
      · exact h
      · split
        · exact h
        · exact processMain_dupes_mem opts dls st file _ _ k h

theorem processFile_dupes_nodup (opts : Opts) (dls : Linkset) (st : PassState)
    (file : String) (h : (st.dupes.map Prod.fst).Nodup) :
    (((processFile opts dls st file).dupes).map Prod.fst).Nodup := by
  unfold processFile
  split
  · exact h
  · split
    · exact h
    · dsimp only
      split
      · exact h
      · split
        · exact h
        · exact processMain_dupes_nodup opts dls st file _ _ h

/-! The same invariants lifted to the whole snapshot loop. -/

theorem pass_done (opts : Opts) (dls : Linkset) (ks : List String) :
    ∀ st : PassState, ∃ t, (List.foldl (processFile opts dls) st ks).doneCalls = st.doneCalls ++ t ∧
      (∀ e ∈ t, e ≠ none) ∧ (opts.duplicatesFail = false → t = []) := by
  induction ks with
  | nil => intro st; exact ⟨[], by simp⟩
  | cons k rest ih =>
    intro st
    obtain ⟨t1, h1, h2, h3⟩ := processFile_done opts dls st k
    obtain ⟨t2, g1, g2, g3⟩ := ih (processFile opts dls st k)
    refine ⟨t1 ++ t2, ?_, ?_, ?_⟩
    · simp [List.foldl_cons, g1, h1]
    · intro e he
      rcases List.mem_append.mp he with hh | hh
      · exact h2 e hh
      · exact g2 e hh
    · intro hd
      simp [h3 hd, g3 hd]

theorem pass_dupes_mem (opts : Opts) (dls : Linkset) (ks : List String) :
    ∀ (st : PassState) (k : String), memF st.dupes k = true →
      memF (List.foldl (processFile opts dls) st ks).dupes k = true := by
  induction ks with
  | nil => intro st k h; exact h
  | cons k0 rest ih =>
    intro st k h
    simp only [List.foldl_cons]
    exact ih (processFile opts dls st k0) k (processFile_dupes_mem opts dls st k0 k h)

theorem pass_dupes_nodup (opts : Opts) (dls : Linkset) (ks : List String) :
    ∀ st : PassState, (st.dupes.map Prod.fst).Nodup →
      (((List.foldl (processFile opts dls) st ks).dupes).map Prod.fst).Nodup := by
  induction ks with
  | nil => intro st h; exact h
  | cons k0 rest ih =>
    intro st h
    simp only [List.foldl_cons]
    exact ih (processFile opts dls st k0) (processFile_dupes_nodup opts dls st k0 h)

/-! Auxiliary facts for the family collector on root-level documents. -/

theorem strDrop_zero (s : String) : strDrop s 0 = s := rfl

theorem isPre_nil (s : String) : isPre "" s = true := by
  have h : ("" : String).toList = [] := by decide
  unfold isPre
  rw [h]
  cases s.toList with
  | nil => rfl
  | cons c cs => rfl

theorem mem_mapFst_of_memF (fs : Files) (k : String) (h : memF fs k = true) :
    k ∈ fs.map Prod.fst := by
  induction fs with
  | nil => simp [memF, getF] at h
  | cons p rest ih =>
    rw [memF, getF_cons] at h
    by_cases hp : p.1 = k
    · simp [hp]
    · rw [if_neg hp] at h
      simp only [List.map_cons, List.mem_cons]
      exact Or.inr (ih h)

theorem getF_none_of_not_mem (fs : Files) (k : String) (h : k ∉ fs.map Prod.fst) :
    getF fs k = none := by
  induction fs with
  | nil => rfl
  | cons p rest ih =>
    simp only [List.map_cons, List.mem_cons, not_or] at h
    rw [getF_cons, if_neg (fun hh => h.1 hh.symm), ih h.2]

theorem setF_fresh (fs : Files) (k : String) (v : Doc) (h : k ∉ fs.map Prod.fst) :
    setF fs k v = fs ++ [(k, v)] :=
  setF_append fs k v (getF_none_of_not_mem fs k h)

theorem famGo (file : String) :
    ∀ (l ret : Files),
      (∀ a ∈ ret.map Prod.fst, a ∉ l.map Prod.fst) →
      (l.map Prod.fst).Nodup →
      l.foldl (fun ret kv =>
        if kv.1 = file then ret
        else if isPre "" kv.1 = false then ret
        else if html kv.1 then ret
        else setF ret (strDrop kv.1 (strLen "")) kv.2) ret
      = ret ++ l.filter (fun kv => !(kv.1 == file) && !(html kv.1)) := by
  intro l
  induction l with
  | nil => intro ret _ _; simp
  | cons p rest ih =>
    intro ret hdisj hnd
    simp only [List.map_cons, List.nodup_cons] at hnd
    have hdisj2 : ∀ a ∈ ret.map Prod.fst, a ∉ rest.map Prod.fst := by
      intro a ha hmem
      exact hdisj a ha (by simp [hmem])
    simp only [List.foldl_cons, List.filter_cons]
    by_cases hpf : p.1 = file
    · have hcond : (!(p.1 == file) && !html p.1) = false := by simp [hpf]
      rw [if_pos hpf, hcond]
      simp only [Bool.false_eq_true, if_false]
      exact ih ret hdisj2 hnd.2
    · by_cases hh : html p.1 = true
      · have hcond : (!(p.1 == file) && !html p.1) = false := by simp [hh]
        rw [if_neg hpf, isPre_nil, hcond]
        simp only [Bool.false_eq_true, if_false]
        have : (if (true : Bool) = false then ret else if html p.1 = true then ret
            else setF ret (strDrop p.1 (strLen "")) p.2) = ret := by
          simp [hh]
        rw [this]
        exact ih ret hdisj2 hnd.2
      · have hcond : (!(p.1 == file) && !html p.1) = true := by simp [hpf, hh]
        rw [if_neg hpf, isPre_nil, hcond]
        simp only [if_pos]
        have hstep : (if (true : Bool) = false then ret else if html p.1 = true then ret
            else setF ret (strDrop p.1 (strLen "")) p.2)
            = ret ++ [(p.1, p.2)] := by
          have hfr : p.1 ∉ ret.map Prod.fst := fun hmem => hdisj p.1 hmem (by simp)
          simp [hh, strDrop_zero, strLen, setF_fresh ret p.1 p.2 hfr]
        rw [hstep]
        have hdisj3 : ∀ a ∈ (ret ++ [(p.1, p.2)]).map Prod.fst, a ∉ rest.map Prod.fst := by
          intro a ha
          simp only [List.map_append, List.mem_append, List.map_cons, List.map_nil,
            List.mem_singleton] at ha
          rcases ha with ha | ha
          · exact hdisj2 a ha
          · subst ha
            exact hnd.1
        rw [ih (ret ++ [(p.1, p.2)]) hdisj3 hnd.2, List.append_assoc]
        rfl

/-! Auxiliary facts for the pattern substitution engine. -/

theorem buildRet_some (keys : List String) (data : Doc) (ls : Linkset)
    (h : ∀ k ∈ keys, presentOk (data.get k) = true) :
    ∃ r, buildRet keys data ls = some r := by
  induction keys with
  | nil => exact ⟨[], rfl⟩
  | cons k ks ih =>
    have hk := h k (by simp)
    cases hv : data.get k with
    | none => rw [hv] at hk; cases hk
    | some v =>
      rw [hv] at hk
      obtain ⟨r, hr⟩ := ih (fun k2 hk2 => h k2 (by simp [hk2]))
      have hcond : (jsFalsyVal v || isEmptyArr v) = false := by
        cases hf : jsFalsyVal v <;> cases he : isEmptyArr v <;>
          simp_all [presentOk]
      refine ⟨(k, match v with
        | MetaVal.date d => ls.dateFmt d
        | _ => ls.slugFn (valToString v)) :: r, ?_⟩
      simp only [buildRet, hv, hcond, Bool.false_eq_true, if_false, hr]
      cases v <;> rfl

theorem buildRet_none (keys : List String) (data : Doc) (ls : Linkset)
    (h : ∃ k, k ∈ keys ∧ presentOk (data.get k) = false) :
    buildRet keys data ls = none := by
  induction keys with
  | nil => obtain ⟨k, hk, _⟩ := h; simp at hk
  | cons k0 ks ih =>
    obtain ⟨k, hk, hbad⟩ := h
    cases hv : data.get k0 with
    | none => simp [buildRet, hv]
    | some v =>
      by_cases hcond : (jsFalsyVal v || isEmptyArr v) = true
      · simp [buildRet, hv, hcond]
      · have hgood : presentOk (data.get k0) = true := by
          rw [hv]
          cases hf : jsFalsyVal v <;> cases he : isEmptyArr v <;>
            simp_all [presentOk]
        rcases List.mem_cons.mp hk with rfl | hks
        · rw [hgood] at hbad; cases hbad
        · have hcond2 : (jsFalsyVal v || isEmptyArr v) = false := by simpa using hcond
          simp [buildRet, hv, hcond2, ih ⟨k, hks, hbad⟩]

/-! Concrete configurations and document sets used to settle the claims.
fmt0 is a stand-in for the external moment formatter, which none of these
scenarios exercises. -/

def fmt0 : String → Nat → String := fun _ _ => ""

/-- The default configuration: plugin called with an empty options object. -/
def optsR : Opts := normalize fmt0 (RawOptions.obj {})

def dlsR : Linkset := defaultLinksetOf optsR

/-- Scenario A: a single root document about.html, no pattern. -/
def files4 : Files := [("about.html", { contents := "A" })]

def run4 : TransformResult := transformOnce optsR dlsR [] files4

/-- Scenario E configuration: unique and duplicatesFail both on. -/
def optsE : Opts :=
  normalize fmt0 (RawOptions.obj { unique := UniqueOpt.flag, duplicatesFail := true })

def dlsE : Linkset := defaultLinksetOf optsE

/-- Scenario E with a third document after the clashing one: news.html
resolves to news, extra.html carries permalink news and clashes, and
later.html follows the clash in snapshot order. -/
def filesE : Files :=
  [("news.html", { contents := "N" }),
   ("extra.html", { contents := "X", permalink := some (PermVal.pstr "news") }),
   ("later.html", { contents := "L" })]

def runE : TransformResult := transformOnce optsE dlsE [] filesE

/-- First document set handed to a configured transform: a post with a
sibling asset, so a pending move is staged and flushed. -/
def files5a : Files :=
  [("blog/post.html", { contents := "P" }), ("blog/pic.png", { contents := "PIC" })]

def run5a : TransformResult := transformOnce optsR dlsR [] files5a

/-- Second, unrelated document set handed to the same configured
transform; the accumulator of the first invocation is carried over, as the
plugin closure does. -/
def files5b : Files := [("a.html", { contents := "A2" })]

def run5b : TransformResult := transformOnce optsR dlsR run5a.dupes files5b

/-- Scenario C: blog/post.html whose content references post.png, with the
sibling asset blog/post.png, relocated to target directory blog/my-post. -/
def docPost : Doc :=
  { contents := "<img src=\"post.png\">", permalink := some (PermVal.pstr "blog/my-post") }

def files2 : Files := [("blog/post.html", docPost), ("blog/post.png", { contents := "PNG" })]

def run2 : TransformResult := transformOnce optsR dlsR [] files2

/-- A family move whose staged key equals the key of an unrelated, unmoved
document: blog/post.html relocates to zzz, carrying blog/pic.png to
zzz/pic.png, which an unrelated document already owns. -/
def files7 : Files :=
  [("blog/post.html", { contents := "P", permalink := some (PermVal.pstr "zzz") }),
   ("blog/pic.png", { contents := "PIC" }),
   ("zzz/pic.png", { contents := "ZZZ" })]

def run7 : TransformResult := transformOnce optsR dlsR [] files7

/-- A linkset whose configured slug function returns the empty string for
every input (a caller-supplied slug function is a supported option). -/
def lsC8 : Linkset := { pattern := ":title", relative := some RelVal.rTrue, slugFn := fun _ => "" }

/-- A document whose title field is present and truthy. -/
def dC8 : Doc := { meta := [("title", MetaVal.str "x")] }

/-- A document with no title field at all. -/
def dC8b : Doc := {}

/-- A root document set with one markup and one non-markup document. -/
def c3files : Files := [("about.html", { contents := "A" }), ("style.css", { contents := "S" })]

/-- The pass state just before the clashing document of Scenario E is
processed: news/index.html is already taken. -/
def stE : PassState :=
  { files := [("news/index.html", { contents := "N" }),
      ("extra.html", { contents := "X", permalink := some (PermVal.pstr "news") })],
    dupes := [], doneCalls := [] }

/-- C1 counterexample: with duplicatesFail on and the default resolver, the
clash of extra.html is reported to the completion callback, yet the
document after it in snapshot order, later.html, is still processed and
renamed to later/index.html — refuting that no further document is
processed after a clash. -/
theorem c1_counter :
    runE.doneCalls
      = [some "Permalinks: Clash with another target file news/index.html", none] ∧
    (getF runE.files "later/index.html").isSome = true ∧
    getF runE.files "later.html" = none := by
  decide

/-- C2: the relink at the failing input.  The moved table maps /post.png to
blog/my-post/post.png, yet the document content that literally references
post.png is byte-for-byte unchanged after the transform (relink searches
for the new key and would replace its first occurrence by the old suffix),
while the sibling asset was staged at its new key. -/
theorem c2_eval :
    (getF run2.files "blog/my-post/index.html").map Doc.contents
      = some "<img src=\"post.png\">" ∧
    (getF run2.files "blog/my-post/post.png").map Doc.contents = some "PNG" := by
  decide

/-- C3 counterexample: for the root-level document about.html the collected
family under the relative policy is not empty; it contains the unrelated
root asset style.css under its full key. -/
theorem c3_counter :
    family "about.html" c3files = [("style.css", { contents := "S" })] ∧
    ¬(family "about.html" c3files = []) := by
  decide

/-- C4 counterexample: for about.html with no pattern, the path metadata
field after the transform is about/index.html, not about. -/
theorem c4_counter :
    (getF run4.files "about/index.html").map Doc.path = some (some "about/index.html") ∧
    ¬((getF run4.files "about/index.html").map Doc.path = some (some "about")) := by
  decide

/-- C4 amended: document about.html with no pattern configured ends under
final key about/index.html, and its path metadata equals
about/index.html (the code appends the index-file suffix to any written
path not ending in html). -/
theorem c4_amended :
    getF run4.files "about/index.html" = some { contents := "A", path := some "about/index.html" } ∧
    getF run4.files "about.html" = none ∧
    run4.files.map Prod.fst = ["about/index.html"] := by
  decide

/-- C5 counterexample: two successive invocations of the same configured
transform share pending moves.  The second invocation receives a fresh
document set that does not contain blog/post/pic.png, yet its result does,
because the accumulator in the plugin closure still holds the entry staged
during the first invocation. -/
theorem c5_counter :
    getF files5b "blog/post/pic.png" = none ∧
    getF run5b.files "blog/post/pic.png" = some { contents := "PIC" } := by
  decide

/-- C6 counterexample: on the fatal-duplicate run the completion callback
is invoked twice, once synchronously with the error and once by the
scheduled deferred call. -/
theorem c6_counter :
    runE.doneCalls.length = 2 ∧ ¬(runE.doneCalls.length = 1) := by
  decide

/-- C7 counterexample: with an all-default configuration (nothing permits
collisions), the flush of pending moves overwrites zzz/pic.png, a key that
is still owned by an unmoved document unrelated to the relocated family. -/
theorem c7_counter :
    getF files7 "zzz/pic.png" = some { contents := "ZZZ" } ∧
    getF run7.files "zzz/pic.png" = some { contents := "PIC" } ∧
    optsR.duplicatesFail = false ∧
    uniqueTruthy optsR.unique = false := by
  refine ⟨by decide, by decide, rfl, rfl⟩

/-- C8 counterexample: every field referenced by the pattern is present
(and truthy), yet the target directory is the structural fallback, because
the configured slug function maps the value to the empty string and the
empty substitution output is falsy in replace(..) || resolve(file). -/
theorem c8_counter :
    (∀ k ∈ params lsC8.pattern, presentOk (Doc.get dC8 k) = true) ∧
    replaceFn lsC8.pattern dC8 lsC8 = some "" ∧
    targetDir lsC8 "p.html" dC8 = resolve "p.html" ∧
    resolve "p.html" = "p" ∧
    ¬(("p" : String) = "") := by
  decide

/-- C1 amended: when processing the snapshot key k issues a fatal duplicate
error call, the error reaches the completion callback of the whole
transform, but the snapshot loop is not aborted: the final pass state is
exactly the fold of the per-file step over the keys after k, so documents
after the clashing one continue to be processed. -/
theorem c1_amended (opts : Opts) (dls : Linkset) (dupes0 files0 : Files)
    (pre post : List String) (k m : String)
    (hsnap : files0.map Prod.fst = pre ++ k :: post)
    (hclash : (processFile opts dls (List.foldl (processFile opts dls) (initState dupes0 files0) pre) k).doneCalls
      = (List.foldl (processFile opts dls) (initState dupes0 files0) pre).doneCalls ++ [some m]) :
    some m ∈ (transformOnce opts dls dupes0 files0).doneCalls ∧
    passOf opts dls dupes0 files0
      = List.foldl (processFile opts dls)
          (processFile opts dls (List.foldl (processFile opts dls) (initState dupes0 files0) pre) k)
          post := by
  have hpass : passOf opts dls dupes0 files0
      = List.foldl (processFile opts dls)
          (processFile opts dls (List.foldl (processFile opts dls) (initState dupes0 files0) pre) k)
          post := by
    unfold passOf
    rw [hsnap, List.foldl_append, List.foldl_cons]
  refine ⟨?_, hpass⟩
  obtain ⟨t, ht, _, _⟩ := pass_done opts dls post
    (processFile opts dls (List.foldl (processFile opts dls) (initState dupes0 files0) pre) k)
  have hdone : (transformOnce opts dls dupes0 files0).doneCalls
      = (passOf opts dls dupes0 files0).doneCalls ++ [none] := rfl
  rw [hdone, hpass, ht, hclash]
  simp

/-- C1 witness: the amended statement instantiated at the Scenario E run
with a document after the clashing one. -/
theorem c1_witness :
    some "Permalinks: Clash with another target file news/index.html"
      ∈ (transformOnce optsE dlsE [] filesE).doneCalls ∧
    passOf optsE dlsE [] filesE
      = List.foldl (processFile optsE dlsE)
          (processFile optsE dlsE
            (List.foldl (processFile optsE dlsE) (initState [] filesE) ["news.html"]) "extra.html")
          ["later.html"] :=
  c1_amended optsE dlsE [] filesE ["news.html"] ["later.html"] "extra.html"
    "Permalinks: Clash with another target file news/index.html" (by decide) (by decide)

/-- C3 amended: under the relative policy a root-level document (directory
resolving to the dot, normalized to the empty string) collects every other
non-markup document of the whole set, keyed by its full key — there is no
short-circuit to an empty family. -/
theorem c3_amended (file : String) (files : Files)
    (hdir : dirname file = ".") (hnd : (files.map Prod.fst).Nodup) :
    family file files = files.filter (fun kv => !(kv.1 == file) && !(html kv.1)) := by
  unfold family
  simp only [hdir, reduceIte]
  exact famGo file files [] (by simp) hnd

/-- C3 witness: the amended statement instantiated at a concrete root-level
document set. -/
theorem c3_witness :
    dirname "about.html" = "." ∧
    family "about.html" c3files
      = c3files.filter (fun kv => !(kv.1 == "about.html") && !(html kv.1)) :=
  ⟨by decide, c3_amended "about.html" c3files (by decide) (by decide)⟩

/-- C5 amended: the pending-moves accumulator is owned by the plugin
closure, not by one invocation: every key it holds when an invocation
starts is still in the accumulator the invocation returns, and the final
flush writes it into that invocation's document set, so successive
invocations of the same configured transform share pending moves. -/
theorem c5_amended (opts : Opts) (dls : Linkset) (dupes0 files0 : Files) (k : String)
    (h : memF dupes0 k = true) :
    memF (transformOnce opts dls dupes0 files0).dupes k = true ∧
    memF (transformOnce opts dls dupes0 files0).files k = true := by
  have hpass : memF (passOf opts dls dupes0 files0).dupes k = true :=
    pass_dupes_mem opts dls (files0.map Prod.fst) (initState dupes0 files0) k h
  constructor
  · exact hpass
  · show memF ((passOf opts dls dupes0 files0).dupes.foldl
      (fun fs kv => setF fs kv.1 kv.2) (passOf opts dls dupes0 files0).files) k = true
    exact memF_flush_of_mem _ k _ hpass

/-- C5 witness: a stale accumulator entry survives an invocation on a
document set that never mentions it, and lands in the output set. -/
theorem c5_witness :
    memF [("x", ({ contents := "D" } : Doc))] "x" = true ∧
    (memF (transformOnce optsR dlsR [("x", { contents := "D" })] []).dupes "x" = true ∧
     memF (transformOnce optsR dlsR [("x", { contents := "D" })] []).files "x" = true) :=
  ⟨by decide, c5_amended optsR dlsR [("x", { contents := "D" })] [] "x" (by decide)⟩

/-- C6 amended: the completion calls of one invocation are a possibly empty
block of synchronous fatal-duplicate error calls followed by exactly one
deferred call with no error; with duplicatesFail disabled the callback is
invoked exactly once. -/
theorem c6_amended (opts : Opts) (dls : Linkset) (dupes0 files0 : Files) :
    ∃ p, (transformOnce opts dls dupes0 files0).doneCalls = p ++ [none] ∧
      (∀ e ∈ p, e ≠ none) ∧ (opts.duplicatesFail = false → p = []) := by
  obtain ⟨t, ht, hall, hdup⟩ := pass_done opts dls (files0.map Prod.fst) (initState dupes0 files0)
  refine ⟨t, ?_, hall, hdup⟩
  have hdone : (transformOnce opts dls dupes0 files0).doneCalls
      = (passOf opts dls dupes0 files0).doneCalls ++ [none] := rfl
  have hp : (passOf opts dls dupes0 files0).doneCalls = t := by
    unfold passOf
    rw [ht]
    rfl
  rw [hdone, hp]

/-- C6 witness: the amended statement instantiated at the default run on a
single document. -/
theorem c6_witness :
    ∃ p, (transformOnce optsR dlsR [] files4).doneCalls = p ++ [none] ∧
      (∀ e ∈ p, e ≠ none) ∧ (optsR.duplicatesFail = false → p = []) :=
  c6_amended optsR dlsR [] files4

/-- C7 amended: the flush after the pass is unconditional last-write-wins:
whatever document the accumulator holds under a key ends up in the
document set under that key, overwriting any unmoved, unrelated owner, with
no configuration consulted. -/
theorem c7_amended (opts : Opts) (dls : Linkset) (dupes0 files0 : Files)
    (hnd : (dupes0.map Prod.fst).Nodup) (k : String) (v : Doc)
    (h : getF (transformOnce opts dls dupes0 files0).dupes k = some v) :
    getF (transformOnce opts dls dupes0 files0).files k = some v := by
  have hnd2 : (((passOf opts dls dupes0 files0).dupes).map Prod.fst).Nodup :=
    pass_dupes_nodup opts dls (files0.map Prod.fst) (initState dupes0 files0) hnd
  have h2 : getF (passOf opts dls dupes0 files0).dupes k = some v := h
  show getF ((passOf opts dls dupes0 files0).dupes.foldl
    (fun fs kv => setF fs kv.1 kv.2) (passOf opts dls dupes0 files0).files) k = some v
  exact getF_flush_nodup _ hnd2 _ k v h2

/-- C7 witness: the amended statement instantiated at the overwrite run. -/
theorem c7_witness :
    getF (transformOnce optsR dlsR [] files7).dupes "zzz/pic.png" = some { contents := "PIC" } ∧
    getF (transformOnce optsR dlsR [] files7).files "zzz/pic.png" = some { contents := "PIC" } :=
  ⟨by decide,
   c7_amended optsR dlsR [] files7 (by decide) "zzz/pic.png" { contents := "PIC" } (by decide)⟩

/-- C8 amended: the target directory is always exactly one of the two
sources: the pattern-substitution output when every referenced field
survives the guard and the substituted string is non-empty, and the
structural fallback when any referenced field is absent or rejected by the
guard, or when the substituted string is empty (the empty string is falsy
in replace(..) || resolve(file)); never a mix of the two. -/
theorem c8_amended (ls : Linkset) (file : String) (data : Doc) :
    (targetDir ls file data = resolve file ∨
      ∃ s, replaceFn ls.pattern data ls = some s ∧ ¬(s = "") ∧ targetDir ls file data = s) ∧
    ((∀ k ∈ params ls.pattern, presentOk (data.get k) = true) → ¬(ls.pattern = "") →
      ∃ s, replaceFn ls.pattern data ls = some s ∧
        (¬(s = "") → targetDir ls file data = s) ∧
        (s = "" → targetDir ls file data = resolve file)) ∧
    ((∃ k, k ∈ params ls.pattern ∧ presentOk (data.get k) = false) →
      replaceFn ls.pattern data ls = none ∧ targetDir ls file data = resolve file) := by
  refine ⟨?_, ?_, ?_⟩
  · cases hr : replaceFn ls.pattern data ls with
    | none => exact Or.inl (by simp [targetDir, hr, jsOrStr])
    | some s =>
      by_cases hs : s = ""
      · subst hs
        exact Or.inl (by simp [targetDir, hr, jsOrStr])
      · exact Or.inr ⟨s, rfl, hs, by simp [targetDir, hr, jsOrStr, hs]⟩
  · intro hall hpat
    obtain ⟨r, hrr⟩ := buildRet_some (params ls.pattern) data ls hall
    refine ⟨substituteStr ls.pattern r, ?_, ?_, ?_⟩
    · simp [replaceFn, hpat, hrr]
    · intro hs
      simp [targetDir, replaceFn, hpat, hrr, jsOrStr, hs]
    · intro hs
      simp [targetDir, replaceFn, hpat, hrr, jsOrStr, hs]
  · intro hex
    have hbr : buildRet (params ls.pattern) data ls = none := buildRet_none _ data ls hex
    by_cases hpat : ls.pattern = ""
    · exact ⟨by simp [replaceFn, hpat], by simp [targetDir, replaceFn, hpat, jsOrStr]⟩
    · exact ⟨by simp [replaceFn, hpat, hbr], by simp [targetDir, replaceFn, hpat, hbr, jsOrStr]⟩

/-- C8 witness: the fallback clause of the amended statement instantiated
at a document with the referenced field absent. -/
theorem c8_witness :
    replaceFn lsC8.pattern dC8b lsC8 = none ∧
    targetDir lsC8 "p.html" dC8b = resolve "p.html" :=
  (c8_amended lsC8 "p.html" dC8b).2.2 ⟨"title", by decide, by decide⟩

/-- C9: when duplicatesFail is on, the resolver is the default, and the
default resolver reports a clash for a processed markup document, the
document set is still mutated for that document: it is removed from its
old key, re-inserted under the literal key undefined, and the error is
handed to the completion callback — the error path is not atomic. -/
theorem c9_thm (opts : Opts) (dls : Linkset) (st : PassState) (file : String)
    (data0 : Doc) (m : String)
    (h0 : getF st.files file = some data0)
    (h1 : opts.fileFilter = none)
    (h2 : opts.ignoreFilter = none)
    (h3 : opts.customSlug = none)
    (h4 : html file = true)
    (h5 : ¬(data0.permalink = some PermVal.pfalse))
    (h6 : uniqueIsCustom opts.unique = false)
    (h7 : defaultUniquePath opts st.files
      (ppathOf (findLinkset opts.linksets dls data0) file data0) = DupResult.clash m)
    (h8 : ¬(file = "undefined")) :
    getF (processFile opts dls st file).files file = none ∧
    (∃ d2, getF (processFile opts dls st file).files "undefined" = some d2) ∧
    (processFile opts dls st file).doneCalls = st.doneCalls ++ [some m] := by
  have hin : inDirsOf opts data0 = true := by
    simp [inDirsOf, h1, h2]
  have hslug : slugStep opts data0 = data0 := by
    simp [slugStep, h3]
  have hmain : processFile opts dls st file = processMain opts dls st file data0 st.files := by
    unfold processFile
    rw [h0]
    dsimp only
    rw [if_neg (by simp [hin]), hslug, setF_eq_self st.files file data0 h0,
      if_neg (by simp [h4]), if_neg h5]
  rw [hmain]
  have houtRes : (match opts.unique with
      | UniqueOpt.custom f =>
        DupResult.ok (f (ppathOf (findLinkset opts.linksets dls data0) file data0) st.files file)
      | _ => defaultUniquePath opts st.files
          (ppathOf (findLinkset opts.linksets dls data0) file data0))
      = DupResult.clash m := by
    cases hu : opts.unique with
    | custom f => rw [hu] at h6; cases h6
    | off => exact h7
    | flag => exact h7
  unfold processMain
  dsimp only
  rw [houtRes]
  dsimp only
  refine ⟨?_, ⟨_, getF_setF_self _ _ _⟩, rfl⟩
  rw [getF_setF_ne _ _ _ _ h8, getF_delF_self]

/-- C9 witness: the statement instantiated at the Scenario E pass state in
which news/index.html is already taken and extra.html clashes. -/
theorem c9_witness :
    getF (processFile optsE dlsE stE "extra.html").files "extra.html" = none ∧
    (∃ d2, getF (processFile optsE dlsE stE "extra.html").files "undefined" = some d2) ∧
    (processFile optsE dlsE stE "extra.html").doneCalls
      = stE.doneCalls ++ [some "Permalinks: Clash with another target file news/index.html"] :=
  c9_thm optsE dlsE stE "extra.html"
    { contents := "X", permalink := some (PermVal.pstr "news") }
    "Permalinks: Clash with another target file news/index.html"
    (by decide) rfl rfl rfl (by decide) (by decide) rfl (by decide) (by decide)

/-- C10: an options object without a relative property of its own is
normalized to relative true; with no linkset marked default, the default
linkset is the options object itself, so the switch on its relative
setting collects the relative-policy family for documents not matched by
any linkset. -/
theorem c10_thm (fmt : String → Nat → String) (o : Opts) (h : o.relative = none)
    (hd : o.linksets.find? (fun ls => ls.isDefault) = none)
    (file : String) (files : Files) :
    (normalize fmt (RawOptions.obj o)).relative = some RelVal.rTrue ∧
    (defaultLinksetOf (normalize fmt (RawOptions.obj o))).relative = some RelVal.rTrue ∧
    famFor ((defaultLinksetOf (normalize fmt (RawOptions.obj o))).relative) file files
      = some (family file files) := by
  have h1 : (normalize fmt (RawOptions.obj o)).relative = some RelVal.rTrue := by
    simp [normalize, normalizeObj, h]
  have h2 : (defaultLinksetOf (normalize fmt (RawOptions.obj o))).relative
      = some RelVal.rTrue := by
    simp [defaultLinksetOf, normalize, normalizeObj, hd, Opts.toLinkset, h]
  refine ⟨h1, h2, ?_⟩
  rw [h2]
  rfl

/-- C10 witness: the statement instantiated at the empty options object. -/
theorem c10_witness :
    ({} : Opts).relative = none ∧
    ((normalize fmt0 (RawOptions.obj {})).relative = some RelVal.rTrue ∧
     (defaultLinksetOf (normalize fmt0 (RawOptions.obj {}))).relative = some RelVal.rTrue ∧
     famFor ((defaultLinksetOf (normalize fmt0 (RawOptions.obj {}))).relative) "a.html" []
       = some (family "a.html" [])) :=
  ⟨rfl, c10_thm fmt0 {} rfl rfl "a.html" []⟩

end Permalinks
